import Mathlib

/-!
Shallow embedding of the FIVB monitor's ingestion engine
(`src/fivb_scraper.py`) and proofs of the specification claims about it.

Conventions of the embedding:
* Python `str` is Lean `String`; Python `int` is Lean `Int`; Python `None`
  for an optional value is `Option.none`.
* `datetime.date` values are embedded as proleptic-Gregorian day numbers
  (`Int`): the `date` type is totally ordered and `timedelta(days = n)`
  is addition of `n`, which this encoding reproduces exactly.
* Raising an exception is returning `Except.error`; the `PyExn` type below
  distinguishes the exception classes the source discriminates on.
* The stateful request counter of `FIVBService` is threaded explicitly:
  each method takes the current count and returns the updated one.
* `xml.etree.ElementTree` documents are embedded as the `XmlNode` tree;
  `html.unescape` and `ET.fromstring` (full entity tables and XML grammar)
  are taken as parameters of the functions that invoke them.
-/

/-- Exceptions the source code raises or discriminates on. -/
inductive PyExn where
  | indexError
  | valueError
  | requestException (msg : String)
  | runtimeError (observed : Nat) (ceiling : Nat)
  | assertionError
  | otherError (msg : String)
deriving DecidableEq

/-- Characters `str.strip()` removes (ASCII whitespace; exotic Unicode
space characters are not modelled). -/
def pyIsSpace (c : Char) : Bool :=
  c = ' ' || c = '\t' || c = '\n' || c = '\r' || c.toNat = 11 || c.toNat = 12

/-- Python `str.strip()`. -/
def pyStrip (s : String) : String :=
  String.mk (((s.data.dropWhile pyIsSpace).reverse.dropWhile pyIsSpace).reverse)

/-- Python `str.lstrip("﻿")`: drop leading byte-order-marker characters. -/
def pyLstripBom (s : String) : String :=
  String.mk (s.data.dropWhile (fun c => c.toNat = 65279))

/-- Python `str.isdigit()` (ASCII digits; Unicode digit classes are not
modelled). -/
def pyIsdigit (s : String) : Bool :=
  !s.data.isEmpty && s.data.all Char.isDigit

/-- Numeric value of a list of ASCII digits. -/
def natOfDigitChars (cs : List Char) : Nat :=
  cs.foldl (fun n c => n * 10 + (c.toNat - 48)) 0

/-- Numeric value of an all-digit string. -/
def natOfDigits (s : String) : Nat :=
  natOfDigitChars s.data

/-- Models Python `int(s)` on a decimal string: optional surrounding
whitespace, optional sign, one or more digits; `none` models the
`ValueError` the source catches. Digit-group underscores are not
modelled. -/
def pyInt (s : String) : Option Int :=
  let t := (pyStrip s).data
  let (sign, digits) : Int × List Char :=
    match t with
    | '-' :: rest => (-1, rest)
    | '+' :: rest => (1, rest)
    | _ => (1, t)
  if digits ≠ [] ∧ digits.all Char.isDigit = true then
    some (sign * (natOfDigitChars digits : Int))
  else none

/-- Gregorian leap year. -/
def isLeapYear (y : Nat) : Bool :=
  (y % 4 = 0 && y % 100 ≠ 0) || y % 400 = 0

/-- Days in a month of the Gregorian calendar. -/
def daysInMonth (y m : Nat) : Nat :=
  if m = 2 then (if isLeapYear y then 29 else 28)
  else if m = 4 ∨ m = 6 ∨ m = 9 ∨ m = 11 then 30
  else 31

/-- Proleptic-Gregorian day number of a civil date (the standard
days-from-civil bijection; `1970-01-01` is day `0`). This is the `Int`
embedding of `datetime.date(y, m, d)`. -/
def daysFromCivil (y m d : Nat) : Int :=
  let yi : Int := if m ≤ 2 then (y : Int) - 1 else (y : Int)
  let era : Int := (if 0 ≤ yi then yi else yi - 399) / 400
  let yoe : Int := yi - era * 400
  let mp : Int := ((m : Int) + 9) % 12
  let doy : Int := (153 * mp + 2) / 5 + (d : Int) - 1
  let doe : Int := yoe * 365 + yoe / 4 - yoe / 100 + doy
  era * 146097 + doe - 719468

/-- Split a character list on `'-'` separators (like `str.split("-")`). -/
def splitDash : List Char → List (List Char)
  | [] => [[]]
  | c :: rest =>
    if c = '-' then [] :: splitDash rest
    else
      match splitDash rest with
      | [] => [[c]]
      | g :: gs => (c :: g) :: gs

/-- Models `datetime.strptime(value[:10], "%Y-%m-%d").date()`: exactly
four year digits, one or two month digits (1-12), one or two day digits
valid for the month, the whole (truncated) string consumed; `none` models
the `ValueError`. -/
def pyStrptimeDate (value : String) : Option Int :=
  match splitDash (value.data.take 10) with
  | [ys, ms, ds] =>
    if ys.length = 4 ∧ ys.all Char.isDigit = true ∧
       1 ≤ ms.length ∧ ms.length ≤ 2 ∧ ms.all Char.isDigit = true ∧
       1 ≤ ds.length ∧ ds.length ≤ 2 ∧ ds.all Char.isDigit = true then
      let y := natOfDigitChars ys
      let m := natOfDigitChars ms
      let d := natOfDigitChars ds
      if 1 ≤ y ∧ 1 ≤ m ∧ m ≤ 12 ∧ 1 ≤ d ∧ d ≤ daysInMonth y m then
        some (daysFromCivil y m d)
      else none
    else none
  | _ => none

/-- Embedding of an `xml.etree.ElementTree.Element`. -/
inductive XmlNode where
  | mk (tag : String) (attrs : List (String × String)) (text : Option String)
      (children : List XmlNode)

def XmlNode.tag : XmlNode → String
  | .mk t _ _ _ => t

def XmlNode.attrs : XmlNode → List (String × String)
  | .mk _ a _ _ => a

def XmlNode.text : XmlNode → Option String
  | .mk _ _ tx _ => tx

def XmlNode.children : XmlNode → List XmlNode
  | .mk _ _ _ c => c

mutual

/-- All strict descendants of a node, in document (preorder) order. -/
def XmlNode.descendants : XmlNode → List XmlNode
  | .mk _ _ _ children => XmlNode.descList children

/-- Preorder traversal of a forest. -/
def XmlNode.descList : List XmlNode → List XmlNode
  | [] => []
  | c :: cs => c :: (XmlNode.descendants c ++ XmlNode.descList cs)

end

/-- `element.findall(".//tag")`: all descendants with the given tag, in
document order. -/
def findallTag (n : XmlNode) (t : String) : List XmlNode :=
  n.descendants.filter (fun c => c.tag == t)

/-- `element.iter()`: the element itself followed by its descendants. -/
def iterNodes (n : XmlNode) : List XmlNode :=
  n :: n.descendants

/-- `element.attrib.get(k)`. -/
def attrGet (n : XmlNode) (k : String) : Option String :=
  (n.attrs.find? (fun p => p.1 == k)).map (fun p => p.2)

/-- `element.attrib.get(k, default)` (also `_xml_text` of the source). -/
def attrGetD (n : XmlNode) (k : String) (d : String) : String :=
  (attrGet n k).getD d

/-- `(element.text or "")`. -/
def textOrEmpty (n : XmlNode) : String :=
  (n.text).getD ""

/-- `Event` dataclass. -/
structure Event where
  no : Int
  code : String
  name : String
  start_date : Int
  end_date : Int
deriving DecidableEq

/-- `BeachTournamentRef` dataclass. -/
structure BeachTournamentRef where
  tournament_no : Int
  gender : Option String
deriving DecidableEq

/-- `BeachTeam` dataclass. -/
structure BeachTeam where
  no_player1 : Option Int
  no_player2 : Option Int
  name : String
  rank : Option Int
  status : String
  country_code : Option String
deriving DecidableEq

/-- `EventTeamsSnapshot` dataclass; the `teams_by_tournament` dict is an
insertion-ordered association list, like a Python dict. -/
structure EventTeamsSnapshot where
  event : Event
  tournaments : List BeachTournamentRef
  teams_by_tournament : List (Int × List BeachTeam)
deriving DecidableEq

/-- `WITHDRAWN_STATES` module constant. -/
def WITHDRAWN_STATES : List String :=
  ["Withdrawn", "WithdrawnWithMedicalCert", "Deleted"]

/-- `STATUSES_TO_FETCH` module constant. -/
def STATUSES_TO_FETCH : List String :=
  ["Registered"] ++ WITHDRAWN_STATES

/-- Lookup in an insertion-ordered association list (Python dict read). -/
def assocGet {α β : Type} [DecidableEq α] (d : List (α × β)) (k : α) : Option β :=
  match d with
  | [] => none
  | (k₀, v) :: rest => if k₀ = k then some v else assocGet rest k

/-- Write to an insertion-ordered association list (Python dict
assignment): replaces in place when the key exists, appends otherwise. -/
def assocSet {α β : Type} [DecidableEq α] (d : List (α × β)) (k : α) (v : β) :
    List (α × β) :=
  match d with
  | [] => [(k, v)]
  | (k₀, v₀) :: rest =>
    if k₀ = k then (k₀, v) :: rest else (k₀, v₀) :: assocSet rest k v

/-- The dict key `(t.no_player1, t.no_player2)` used by `dedupe_teams`. -/
abbrev TeamKey := Option Int × Option Int

def teamKey (t : BeachTeam) : TeamKey :=
  (t.no_player1, t.no_player2)

/-- The `priority` dict of `dedupe_teams`, read with `.get(status, 0)`. -/
def priority (s : String) : Nat :=
  if s = "Deleted" then 3
  else if s = "WithdrawnWithMedicalCert" then 2
  else if s = "Withdrawn" then 1
  else if s = "Registered" then 0
  else 0

/-- One iteration of the `dedupe_teams` loop body on the `by_key` dict. -/
def dedupeStep (d : List (TeamKey × BeachTeam)) (t : BeachTeam) :
    List (TeamKey × BeachTeam) :=
  match assocGet d (teamKey t) with
  | none => assocSet d (teamKey t) t
  | some existing =>
    if priority t.status > priority existing.status then
      assocSet d (teamKey t) t
    else d

/-- `dedupe_teams` of the source: fold the team list through the `by_key`
dict and return `list(by_key.values())` (values in insertion order). -/
def dedupe_teams (team_list : List BeachTeam) : List BeachTeam :=
  (team_list.foldl dedupeStep []).map Prod.snd

/-- The per-key merge the `dedupe_teams` loop performs: the first
occurrence seeds the entry, a later occurrence replaces it exactly when
its priority is strictly higher. -/
def mergeOne (acc : Option BeachTeam) (t : BeachTeam) : Option BeachTeam :=
  match acc with
  | none => some t
  | some e => if priority t.status > priority e.status then some t else some e

theorem assocGet_assocSet {α β : Type} [DecidableEq α] (d : List (α × β)) (k : α)
    (v : β) (q : α) :
    assocGet (assocSet d k v) q = if k = q then some v else assocGet d q := by
  induction d with
  | nil => simp [assocGet, assocSet]
  | cons p rest ih =>
    obtain ⟨k₀, v₀⟩ := p
    by_cases h : k₀ = k
    · subst h
      simp only [assocSet, if_pos rfl, assocGet]
      by_cases hq : k₀ = q
      · subst hq; simp
      · simp [assocGet, hq]
    · simp only [assocSet, if_neg h, assocGet]
      by_cases hq : k₀ = q
      · subst hq
        have hk : ¬ k = k₀ := fun e => h e.symm
        simp [hk]
      · simp [hq, ih]

theorem assocGet_dedupeStep (d : List (TeamKey × BeachTeam)) (t : BeachTeam)
    (q : TeamKey) :
    assocGet (dedupeStep d t) q =
      if teamKey t = q then mergeOne (assocGet d q) t else assocGet d q := by
  unfold dedupeStep
  cases hg : assocGet d (teamKey t) with
  | none =>
    rw [assocGet_assocSet]
    by_cases hq : teamKey t = q
    · subst hq; simp [hg, mergeOne]
    · simp [hq]
  | some e =>
    dsimp only
    by_cases hp : priority t.status > priority e.status
    · rw [if_pos hp, assocGet_assocSet]
      by_cases hq : teamKey t = q
      · subst hq; simp [hg, mergeOne, hp]
      · simp [hq]
    · rw [if_neg hp]
      by_cases hq : teamKey t = q
      · subst hq; simp [hg, mergeOne, hp]
      · simp [hq]

theorem assocGet_foldl_dedupeStep (ts : List BeachTeam) :
    ∀ (d : List (TeamKey × BeachTeam)) (q : TeamKey),
      assocGet (ts.foldl dedupeStep d) q =
        (ts.filter (fun t => teamKey t == q)).foldl mergeOne (assocGet d q) := by
  induction ts with
  | nil => intro d q; simp
  | cons t ts ih =>
    intro d q
    simp only [List.foldl_cons]
    rw [ih]
    by_cases hq : teamKey t = q
    · have hf : List.filter (fun u => teamKey u == q) (t :: ts) =
          t :: List.filter (fun u => teamKey u == q) ts := by
        simp [List.filter_cons, hq]
      rw [hf, List.foldl_cons, assocGet_dedupeStep, if_pos hq]
    · have hf : List.filter (fun u => teamKey u == q) (t :: ts) =
          List.filter (fun u => teamKey u == q) ts := by
        simp [List.filter_cons, hq]
      rw [hf, assocGet_dedupeStep, if_neg hq]

/-- Invariant of the `by_key` dict: every stored value is stored under its
own key, and keys are pairwise distinct. -/
def WFDict (d : List (TeamKey × BeachTeam)) : Prop :=
  (∀ p ∈ d, teamKey p.2 = p.1) ∧ (d.map Prod.fst).Nodup

theorem mem_assocSet {α β : Type} [DecidableEq α] (d : List (α × β)) (k : α)
    (v : β) (p : α × β) (hp : p ∈ assocSet d k v) : p ∈ d ∨ p = (k, v) := by
  induction d with
  | nil =>
    simp only [assocSet, List.mem_singleton] at hp
    exact Or.inr hp
  | cons p₀ rest ih =>
    obtain ⟨k₀, v₀⟩ := p₀
    by_cases h : k₀ = k
    · subst h
      simp only [assocSet, if_pos rfl] at hp
      rcases List.mem_cons.mp hp with h1 | h1
      · exact Or.inr h1
      · exact Or.inl (List.mem_cons_of_mem _ h1)
    · simp only [assocSet, if_neg h] at hp
      rcases List.mem_cons.mp hp with h1 | h1
      · exact Or.inl (h1 ▸ List.mem_cons_self _ _)
      · rcases ih h1 with h2 | h2
        · exact Or.inl (List.mem_cons_of_mem _ h2)
        · exact Or.inr h2

theorem assocGet_eq_none_iff {α β : Type} [DecidableEq α] (d : List (α × β))
    (k : α) : assocGet d k = none ↔ k ∉ d.map Prod.fst := by
  induction d with
  | nil => simp [assocGet]
  | cons p rest ih =>
    obtain ⟨k₀, v₀⟩ := p
    by_cases h : k₀ = k
    · subst h; simp [assocGet]
    · have hne : ¬ k = k₀ := fun e => h e.symm
      simp [assocGet, h, ih, hne]

theorem map_fst_assocSet {α β : Type} [DecidableEq α] (d : List (α × β)) (k : α)
    (v : β) :
    (assocSet d k v).map Prod.fst =
      if k ∈ d.map Prod.fst then d.map Prod.fst else d.map Prod.fst ++ [k] := by
  induction d with
  | nil => simp [assocSet]
  | cons p rest ih =>
    obtain ⟨k₀, v₀⟩ := p
    by_cases h : k₀ = k
    · subst h; simp [assocSet]
    · have hne : ¬ k = k₀ := fun e => h e.symm
      simp only [assocSet, if_neg h, List.map_cons, ih]
      by_cases hm : k ∈ rest.map Prod.fst
      · simp [hm, List.mem_cons, hne]
      · simp [hm, List.mem_cons, hne]

theorem wfDict_assocSet (d : List (TeamKey × BeachTeam)) (t : BeachTeam)
    (hd : WFDict d) : WFDict (assocSet d (teamKey t) t) := by
  obtain ⟨h1, h2⟩ := hd
  constructor
  · intro p hp
    rcases mem_assocSet d (teamKey t) t p hp with h | h
    · exact h1 p h
    · rw [h]
  · rw [map_fst_assocSet]
    by_cases hm : teamKey t ∈ d.map Prod.fst
    · simpa [hm] using h2
    · simp only [if_neg hm]
      refine List.Nodup.append h2 (List.nodup_singleton _) ?_
      intro a ha hb
      rw [List.mem_singleton] at hb
      exact hm (hb ▸ ha)

theorem wfDict_dedupeStep (d : List (TeamKey × BeachTeam)) (t : BeachTeam)
    (hd : WFDict d) : WFDict (dedupeStep d t) := by
  unfold dedupeStep
  cases assocGet d (teamKey t) with
  | none => exact wfDict_assocSet d t hd
  | some e =>
    dsimp only
    split_ifs with hp
    · exact wfDict_assocSet d t hd
    · exact hd

theorem wfDict_foldl (ts : List BeachTeam) :
    ∀ d, WFDict d → WFDict (ts.foldl dedupeStep d) := by
  induction ts with
  | nil => intro d h; exact h
  | cons t ts ih => intro d h; exact ih _ (wfDict_dedupeStep d t h)

theorem wfDict_nil : WFDict [] := ⟨by simp, by simp⟩

theorem filter_map_snd_eq_get (d : List (TeamKey × BeachTeam)) (q : TeamKey)
    (hd : WFDict d) :
    (d.map Prod.snd).filter (fun t => teamKey t == q) = (assocGet d q).toList := by
  induction d with
  | nil => simp [assocGet]
  | cons p rest ih =>
    obtain ⟨k₀, v₀⟩ := p
    obtain ⟨h1, h2⟩ := hd
    have hv : teamKey v₀ = k₀ := h1 (k₀, v₀) (List.mem_cons_self _ _)
    have h2' : (k₀ :: rest.map Prod.fst).Nodup := by simpa using h2
    have hk₀ : k₀ ∉ rest.map Prod.fst := (List.nodup_cons.mp h2').1
    have hrest : WFDict rest :=
      ⟨fun p hp => h1 p (List.mem_cons_of_mem _ hp), (List.nodup_cons.mp h2').2⟩
    by_cases hq : k₀ = q
    · subst hq
      have hhead : (teamKey v₀ == k₀) = true := beq_iff_eq.mpr hv
      have htail : (rest.map Prod.snd).filter (fun t => teamKey t == k₀) = [] := by
        refine List.filter_eq_nil_iff.mpr ?_
        intro t ht hb
        obtain ⟨p, hp, hps⟩ := List.mem_map.mp ht
        have hkey : teamKey p.2 = p.1 := hrest.1 p hp
        have : p.1 = k₀ := by rw [← hkey, hps]; exact beq_iff_eq.mp hb
        exact hk₀ (this ▸ List.mem_map_of_mem Prod.fst hp)
      have hget : assocGet ((k₀, v₀) :: rest) k₀ = some v₀ := by
        simp [assocGet]
      rw [List.map_cons, List.filter_cons, hhead, hget]
      simp [htail]
    · have hhead : (teamKey v₀ == q) = false := by
        rw [hv]; exact beq_eq_false_iff_ne.mpr hq
      have hget : assocGet ((k₀, v₀) :: rest) q = assocGet rest q := by
        simp [assocGet, hq]
      rw [List.map_cons, List.filter_cons, hhead, hget]
      simpa using ih hrest

theorem dedupe_filter_characterization (ts : List BeachTeam) (q : TeamKey) :
    (dedupe_teams ts).filter (fun t => teamKey t == q) =
      ((ts.filter (fun t => teamKey t == q)).foldl mergeOne none).toList := by
  unfold dedupe_teams
  rw [filter_map_snd_eq_get _ q (wfDict_foldl ts [] wfDict_nil),
    assocGet_foldl_dedupeStep]
  rfl

/-- Highest priority among a list of teams (0 for the empty list). -/
def maxPriority : List BeachTeam → Nat
  | [] => 0
  | t :: r => Nat.max (priority t.status) (maxPriority r)

/-- The first team of a list whose status priority attains the list's
maximum priority. -/
def firstMax (l : List BeachTeam) : Option BeachTeam :=
  l.find? (fun t => priority t.status == maxPriority l)

theorem firstMax_cons_cons (e t : BeachTeam) (r : List BeachTeam) :
    firstMax (e :: t :: r) =
      firstMax ((if priority t.status > priority e.status then t else e) :: r) := by
  by_cases hp : priority t.status > priority e.status
  · rw [if_pos hp]
    have hle : priority e.status ≤ maxPriority (t :: r) := by
      refine le_trans (Nat.le_of_lt hp) ?_
      show priority t.status ≤ Nat.max (priority t.status) (maxPriority r)
      exact Nat.le_max_left _ _
    have hM : maxPriority (e :: t :: r) = maxPriority (t :: r) := by
      show Nat.max (priority e.status) (maxPriority (t :: r)) = maxPriority (t :: r)
      exact Nat.max_eq_right hle
    have he : (priority e.status == maxPriority (t :: r)) = false := by
      have : priority e.status < maxPriority (t :: r) :=
        lt_of_lt_of_le hp (Nat.le_max_left _ _)
      simp [Nat.ne_of_lt this]
    unfold firstMax
    rw [hM]
    simp only [List.find?_cons, he]
  · rw [if_neg hp]
    have hple : priority t.status ≤ priority e.status := Nat.le_of_not_lt hp
    have hM : maxPriority (e :: t :: r) = maxPriority (e :: r) := by
      show Nat.max (priority e.status) (Nat.max (priority t.status) (maxPriority r)) =
        Nat.max (priority e.status) (maxPriority r)
      apply Nat.le_antisymm
      · refine Nat.max_le.mpr ⟨Nat.le_max_left _ _, Nat.max_le.mpr ⟨?_, ?_⟩⟩
        · exact le_trans hple (Nat.le_max_left _ _)
        · exact Nat.le_max_right _ _
      · refine Nat.max_le.mpr ⟨Nat.le_max_left _ _, ?_⟩
        exact le_trans (Nat.le_max_right _ _) (Nat.le_max_right _ _)
    unfold firstMax
    rw [hM]
    by_cases he : (priority e.status == maxPriority (e :: r)) = true
    · simp only [List.find?_cons, he]
    · have he' : (priority e.status == maxPriority (e :: r)) = false :=
        eq_false_of_ne_true he
      have hlt : priority e.status < maxPriority (e :: r) := by
        have h1 : priority e.status ≤ maxPriority (e :: r) := by
          show priority e.status ≤ Nat.max (priority e.status) (maxPriority r)
          exact Nat.le_max_left _ _
        have h2 : priority e.status ≠ maxPriority (e :: r) := by
          intro hcontra
          exact he (beq_iff_eq.mpr hcontra)
        omega
      have ht : (priority t.status == maxPriority (e :: r)) = false := by
        have : priority t.status < maxPriority (e :: r) := lt_of_le_of_lt hple hlt
        simp [Nat.ne_of_lt this]
      simp only [List.find?_cons, he', ht]

theorem foldl_mergeOne_some (r : List BeachTeam) :
    ∀ e, r.foldl mergeOne (some e) = firstMax (e :: r) := by
  induction r with
  | nil =>
    intro e
    show some e = firstMax [e]
    unfold firstMax
    have hb : (priority e.status == maxPriority [e]) = true := by
      have hm : maxPriority [e] = priority e.status := by
        show Nat.max (priority e.status) 0 = priority e.status
        exact Nat.max_zero _
      simp [hm]
    simp only [List.find?_cons, hb]
  | cons t r ih =>
    intro e
    rw [List.foldl_cons]
    have hm : mergeOne (some e) t =
        some (if priority t.status > priority e.status then t else e) := by
      by_cases h : priority t.status > priority e.status
      · simp [mergeOne, h]
      · simp [mergeOne, h]
    rw [hm, ih, ← firstMax_cons_cons]

theorem foldl_mergeOne_some_isSome (r : List BeachTeam) :
    ∀ e, ∃ u, r.foldl mergeOne (some e) = some u := by
  induction r with
  | nil => intro e; exact ⟨e, rfl⟩
  | cons t r ih =>
    intro e
    rw [List.foldl_cons]
    by_cases h : priority t.status > priority e.status
    · have : mergeOne (some e) t = some t := by simp [mergeOne, h]
      rw [this]; exact ih t
    · have : mergeOne (some e) t = some e := by simp [mergeOne, h]
      rw [this]; exact ih e

theorem foldl_mergeOne_none (e : BeachTeam) (r : List BeachTeam) :
    (e :: r).foldl mergeOne none = firstMax (e :: r) := by
  rw [List.foldl_cons]
  show r.foldl mergeOne (some e) = _
  exact foldl_mergeOne_some r e

theorem find?_pred_true {α : Type} (p : α → Bool) (l : List α) (a : α)
    (h : l.find? p = some a) : p a = true :=
  List.find?_some h

/-- C1: for every input team list and every `(player1, player2)` key that
occurs in it, `dedupe_teams` keeps exactly one team with that key; the
kept team's status priority (Deleted 3 > WithdrawnWithMedicalCert 2 >
Withdrawn 1 > Registered 0) is the highest among the key's occurrences;
it is exactly the first occurrence attaining that highest priority (first
occurrence seeds, a strictly higher priority replaces, equal or lower is
discarded); and a team whose key occurs only once appears in the output. -/
theorem dedupe_teams_keeps_highest_priority (ts : List BeachTeam) (q : TeamKey)
    (h : ts.filter (fun t => teamKey t == q) ≠ []) :
    ∃ t : BeachTeam,
      (dedupe_teams ts).filter (fun u => teamKey u == q) = [t] ∧
      t ∈ ts.filter (fun u => teamKey u == q) ∧
      priority t.status = maxPriority (ts.filter (fun u => teamKey u == q)) ∧
      (ts.filter (fun u => teamKey u == q)).find?
        (fun u => priority u.status ==
          maxPriority (ts.filter (fun v => teamKey v == q))) = some t ∧
      (∀ u : BeachTeam, ts.filter (fun v => teamKey v == q) = [u] →
        u ∈ dedupe_teams ts) := by
  obtain ⟨e, r, hl⟩ : ∃ e r, ts.filter (fun t => teamKey t == q) = e :: r := by
    cases hf : ts.filter (fun t => teamKey t == q) with
    | nil => exact absurd hf h
    | cons e r => exact ⟨e, r, rfl⟩
  have hchar := dedupe_filter_characterization ts q
  rw [hl, foldl_mergeOne_none] at hchar
  obtain ⟨t, ht⟩ : ∃ t, firstMax (e :: r) = some t := by
    rw [← foldl_mergeOne_some]
    exact foldl_mergeOne_some_isSome r e
  have htf : (e :: r).find?
      (fun u => priority u.status == maxPriority (e :: r)) = some t := ht
  refine ⟨t, ?_, ?_, ?_, ?_, ?_⟩
  · rw [hchar, ht]; rfl
  · rw [hl]; exact List.mem_of_find?_eq_some htf
  · rw [hl]
    have hpred := find?_pred_true _ _ _ htf
    exact beq_iff_eq.mp hpred
  · rw [hl]; exact htf
  · intro u hu
    have h1 : (dedupe_teams ts).filter (fun v => teamKey v == q) = [u] := by
      rw [dedupe_filter_characterization, hu]
      rfl
    have h2 : u ∈ (dedupe_teams ts).filter (fun v => teamKey v == q) := by
      rw [h1]; exact List.mem_singleton_self u
    exact List.mem_of_mem_filter h2

def teamW1 : BeachTeam := ⟨some 1, some 2, "W1", none, "Registered", none⟩

def teamW2 : BeachTeam := ⟨some 1, some 2, "W2", none, "Deleted", none⟩

def teamW3 : BeachTeam := ⟨some 3, some 4, "W3", none, "Withdrawn", none⟩

/-- Witness for C1 at a concrete input: among two teams sharing the key
`(1, 2)` with statuses Registered and Deleted, plus a unique-key team. -/
theorem dedupe_teams_keeps_highest_priority_witness :
    ∃ t : BeachTeam,
      (dedupe_teams [teamW1, teamW2, teamW3]).filter
        (fun u => teamKey u == ((some 1, some 2) : TeamKey)) = [t] ∧
      t ∈ [teamW1, teamW2, teamW3].filter
        (fun u => teamKey u == ((some 1, some 2) : TeamKey)) ∧
      priority t.status = maxPriority ([teamW1, teamW2, teamW3].filter
        (fun u => teamKey u == ((some 1, some 2) : TeamKey))) ∧
      ([teamW1, teamW2, teamW3].filter
        (fun u => teamKey u == ((some 1, some 2) : TeamKey))).find?
        (fun u => priority u.status ==
          maxPriority ([teamW1, teamW2, teamW3].filter
            (fun v => teamKey v == ((some 1, some 2) : TeamKey)))) = some t ∧
      (∀ u : BeachTeam, [teamW1, teamW2, teamW3].filter
        (fun v => teamKey v == ((some 1, some 2) : TeamKey)) = [u] →
        u ∈ dedupe_teams [teamW1, teamW2, teamW3]) :=
  dedupe_teams_keeps_highest_priority [teamW1, teamW2, teamW3]
    (some 1, some 2) (by decide)

def teamSwapA : BeachTeam := ⟨some 1, some 2, "A", none, "Registered", none⟩

def teamSwapB : BeachTeam := ⟨some 2, some 1, "B", none, "Withdrawn", none⟩

def teamNoIdsC : BeachTeam := ⟨none, none, "C", none, "Registered", none⟩

def teamNoIdsD : BeachTeam := ⟨none, none, "D", none, "Withdrawn", none⟩

/-- C2 counterexample: the dedupe key is the ORDERED pair, so two teams
with swapped player numbers are NOT merged (the claim says they merge
under one key), and two teams both missing both identifiers ARE merged
under the key `(None, None)` (the claim says each is kept as an
independent entry). -/
theorem dedupe_teams_unordered_claim_counterexample :
    dedupe_teams [teamSwapA, teamSwapB] = [teamSwapA, teamSwapB] ∧
    dedupe_teams [teamNoIdsC, teamNoIdsD] = [teamNoIdsD] := by
  constructor
  · decide
  · decide

/-- C2 (amended): the deduplication identity is the ordered
`(no_player1, no_player2)` pair with absent identifiers participating as
ordinary key values: for every key (including keys with absent
components) the output contains exactly one team with that key when the
key occurs in the input and none otherwise — so teams merge exactly when
their ordered pairs are equal componentwise, swapped pairs are kept
separately, and teams with identical absence patterns (for example both
identifiers missing) are merged. -/
theorem dedupe_teams_ordered_exact_key (ts : List BeachTeam) (q : TeamKey) :
    ((dedupe_teams ts).filter (fun t => teamKey t == q)).length =
      if (ts.filter (fun t => teamKey t == q)).isEmpty then 0 else 1 := by
  rw [dedupe_filter_characterization]
  cases hf : ts.filter (fun t => teamKey t == q) with
  | nil => simp
  | cons e r =>
    rw [foldl_mergeOne_none]
    obtain ⟨t, ht⟩ : ∃ t, firstMax (e :: r) = some t := by
      rw [← foldl_mergeOne_some]
      exact foldl_mergeOne_some_isSome r e
    rw [ht]
    simp

/-- A `requests` response as `HttpClient.get_xml` inspects it. -/
structure HttpResponse where
  status_code : Nat
  text : String

/-- `HttpClient.__init__` default for `retry_wait_seconds` (`15 * 60`). -/
def retry_wait_seconds_default : Nat := 15 * 60

/-- `HttpClient.__init__` default for `max_attempts`. -/
def max_attempts_default : Nat := 3

/-- The body of one attempt of `HttpClient.get_xml`: perform the
transport call (`sessionGet`, indexed by the attempt number, models
`self.session.get`, returning `Except.error` when it raises), reject a
non-200 status or an empty/whitespace-only body, then parse the body
(`fromstring` models `ET.fromstring`, `none` when it raises
`ParseError`). Every failure is surfaced as an `Except.error`, as the
source converts each of these conditions into a raised exception. -/
def attemptOnce (sessionGet : Nat → Except PyExn HttpResponse)
    (fromstring : String → Option XmlNode) (attempt : Nat) :
    Except PyExn XmlNode :=
  match sessionGet attempt with
  | .error e => .error e
  | .ok resp =>
    if resp.status_code ≠ 200 ∨ pyStrip resp.text = "" then
      .error (.requestException
        ("Bad status " ++ toString resp.status_code ++ " or empty body"))
    else
      match fromstring resp.text with
      | none => .error (.requestException "XML parse error")
      | some root => .ok root

/-- Observable outcome of `HttpClient.get_xml`: the returned root or the
re-raised last exception, the number of attempts performed, and the list
of inter-attempt delays slept (each entry one `time.sleep` duration). -/
structure FetchTrace where
  result : Except PyExn XmlNode
  attempts : Nat
  sleeps : List Nat

/-- The `for attempt in range(1, max_attempts + 1)` loop of
`HttpClient.get_xml`: `remaining` counts the attempts still allowed. A
successful attempt returns immediately; a failed attempt that is not the
last sleeps `wait` seconds and retries; the last failure re-raises the
last observed exception. `remaining = 0` models the `assert` after an
empty loop (`max_attempts = 0`). -/
def runAttempts (step : Nat → Except PyExn XmlNode) (wait : Nat) :
    Nat → Nat → FetchTrace
  | _, 0 => ⟨.error .assertionError, 0, []⟩
  | attempt, r + 1 =>
    match step attempt with
    | .ok root => ⟨.ok root, 1, []⟩
    | .error e =>
      if r = 0 then ⟨.error e, 1, []⟩
      else
        let t := runAttempts step wait (attempt + 1) r
        ⟨t.result, 1 + t.attempts, wait :: t.sleeps⟩

/-- `HttpClient.get_xml`, starting at attempt 1. -/
def get_xml (sessionGet : Nat → Except PyExn HttpResponse)
    (fromstring : String → Option XmlNode) (wait maxAttempts : Nat) :
    FetchTrace :=
  runAttempts (attemptOnce sessionGet fromstring) wait 1 maxAttempts

theorem runAttempts_attempts_le (step : Nat → Except PyExn XmlNode)
    (wait : Nat) : ∀ r a, (runAttempts step wait a r).attempts ≤ r := by
  intro r
  induction r with
  | zero => intro a; simp [runAttempts]
  | succ r ih =>
    intro a
    unfold runAttempts
    cases step a with
    | ok root => simp
    | error e =>
      dsimp only
      by_cases hr : r = 0
      · simp [hr]
      · have := ih (a + 1)
        simp only [if_neg hr]
        omega

theorem runAttempts_all_fail (step : Nat → Except PyExn XmlNode) (wait : Nat) :
    ∀ r a, 1 ≤ r → (∀ i, a ≤ i → i < a + r → ∃ e, step i = .error e) →
      runAttempts step wait a r =
        ⟨step (a + r - 1), r, List.replicate (r - 1) wait⟩ := by
  intro r
  induction r with
  | zero => intro a h; omega
  | succ r ih =>
    intro a _ hfail
    obtain ⟨e, he⟩ := hfail a (le_refl a) (by omega)
    unfold runAttempts
    rw [he]
    dsimp only
    by_cases hr : r = 0
    · subst hr
      simp [he]
    · rw [if_neg hr]
      have hrec := ih (a + 1) (by omega)
        (fun i h1 h2 => hfail i (by omega) (by omega))
      rw [hrec]
      have h1 : a + 1 + r - 1 = a + (r + 1) - 1 := by omega
      have h2 : r + 1 - 1 = (r - 1) + 1 := by omega
      rw [← h1, h2, List.replicate_succ, Nat.add_comm 1 r] 

theorem runAttempts_fail_then_ok (step : Nat → Except PyExn XmlNode)
    (wait : Nat) :
    ∀ k a r, k < r → (∀ i, a ≤ i → i < a + k → ∃ e, step i = .error e) →
      (∃ root, step (a + k) = .ok root) →
      runAttempts step wait a r =
        ⟨step (a + k), k + 1, List.replicate k wait⟩ := by
  intro k
  induction k with
  | zero =>
    intro a r hk hfail hok
    obtain ⟨root, hroot⟩ := hok
    cases r with
    | zero => omega
    | succ r =>
      unfold runAttempts
      rw [show a + 0 = a from rfl] at hroot
      rw [hroot]
      simp [hroot]
  | succ k ih =>
    intro a r hk hfail hok
    obtain ⟨e, he⟩ := hfail a (le_refl a) (by omega)
    cases r with
    | zero => omega
    | succ r =>
      unfold runAttempts
      rw [he]
      dsimp only
      have hr : ¬ r = 0 := by omega
      rw [if_neg hr]
      have hrec := ih (a + 1) r (by omega)
        (fun i h1 h2 => hfail i (by omega) (by omega))
        (by have h : a + 1 + k = a + (k + 1) := by omega
            rw [h]; exact hok)
      rw [hrec]
      have h1 : a + 1 + k = a + (k + 1) := by omega
      rw [h1, List.replicate_succ, Nat.add_comm 1 (k + 1)]

/-- C3: `HttpClient.get_xml` performs at most `max_attempts` attempts
(default 3); an individual attempt succeeds exactly when the transport
call returns, the status is 200, the body is not empty or
whitespace-only, and the body parses; when the first `k` attempts fail
and attempt `k + 1` succeeds the call returns that root after exactly `k`
fixed-length delays; when every attempt fails the call performs all
`max_attempts` attempts, observes exactly `max_attempts - 1` delays of
the fixed configured length (default `15 * 60 = 900` seconds), and fails
with the error of the last attempt (the last observed cause). -/
theorem get_xml_retry_spec (sessionGet : Nat → Except PyExn HttpResponse)
    (fromstring : String → Option XmlNode) (wait maxAttempts : Nat) :
    (get_xml sessionGet fromstring wait maxAttempts).attempts ≤ maxAttempts ∧
    (∀ i, (∃ root, attemptOnce sessionGet fromstring i = .ok root) ↔
      (∃ resp, sessionGet i = .ok resp ∧ resp.status_code = 200 ∧
        pyStrip resp.text ≠ "" ∧ (fromstring resp.text).isSome = true)) ∧
    (∀ k, k + 1 ≤ maxAttempts →
      (∀ i, 1 ≤ i → i ≤ k → ∃ e, attemptOnce sessionGet fromstring i = .error e) →
      (∃ root, attemptOnce sessionGet fromstring (k + 1) = .ok root) →
      get_xml sessionGet fromstring wait maxAttempts =
        ⟨attemptOnce sessionGet fromstring (k + 1), k + 1,
          List.replicate k wait⟩) ∧
    (1 ≤ maxAttempts →
      (∀ i, 1 ≤ i → i ≤ maxAttempts →
        ∃ e, attemptOnce sessionGet fromstring i = .error e) →
      get_xml sessionGet fromstring wait maxAttempts =
        ⟨attemptOnce sessionGet fromstring maxAttempts, maxAttempts,
          List.replicate (maxAttempts - 1) wait⟩) ∧
    retry_wait_seconds_default = 900 ∧ max_attempts_default = 3 := by
  refine ⟨?_, ?_, ?_, ?_, rfl, rfl⟩
  · exact runAttempts_attempts_le _ wait maxAttempts 1
  · intro i
    constructor
    · intro hok
      obtain ⟨root, hroot⟩ := hok
      unfold attemptOnce at hroot
      cases hs : sessionGet i with
      | error e => rw [hs] at hroot; exact absurd hroot (by simp)
      | ok resp =>
        rw [hs] at hroot
        dsimp only at hroot
        by_cases hcond : resp.status_code ≠ 200 ∨ pyStrip resp.text = ""
        · rw [if_pos hcond] at hroot
          exact absurd hroot (by simp)
        · rw [if_neg hcond] at hroot
          push_neg at hcond
          cases hf : fromstring resp.text with
          | none => rw [hf] at hroot; exact absurd hroot (by simp)
          | some r =>
            exact ⟨resp, rfl, hcond.1, hcond.2, by rw [hf]; rfl⟩
    · intro hresp
      obtain ⟨resp, hs, h200, hne, hsome⟩ := hresp
      obtain ⟨root, hf⟩ := Option.isSome_iff_exists.mp hsome
      refine ⟨root, ?_⟩
      unfold attemptOnce
      rw [hs]
      dsimp only
      rw [if_neg (by push_neg; exact ⟨h200, hne⟩), hf]
  · intro k hk hfail hok
    unfold get_xml
    have h := runAttempts_fail_then_ok (attemptOnce sessionGet fromstring)
      wait k 1 maxAttempts (by omega)
      (fun i h1 h2 => hfail i h1 (by omega))
      (by have h : 1 + k = k + 1 := by omega
          rw [h]; exact hok)
    rw [h]
    have h1 : 1 + k = k + 1 := by omega
    rw [h1]
  · intro hmax hfail
    unfold get_xml
    have h := runAttempts_all_fail (attemptOnce sessionGet fromstring)
      wait maxAttempts 1 hmax
      (fun i h1 h2 => hfail i h1 (by omega))
    rw [h]
    have h1 : 1 + maxAttempts - 1 = maxAttempts := by omega
    rw [h1]

def respNode0 : XmlNode := .mk "Response" [] none []

/-- A session whose first two calls raise and whose third call returns a
well-formed body. -/
def sessionGetW : Nat → Except PyExn HttpResponse :=
  fun i => if 3 ≤ i then .ok ⟨200, "<Response/>"⟩
    else .error (.requestException "temporary failure")

def fromstringW : String → Option XmlNode :=
  fun s => if s = "<Response/>" then some respNode0 else none

/-- Witness for C3 at a concrete input: two transient failures then a
success, with `max_attempts = 3` — three attempts, two delays, the root
returned. -/
theorem get_xml_retry_spec_witness :
    get_xml sessionGetW fromstringW 1 3 = ⟨.ok respNode0, 3, [1, 1]⟩ := by
  have hfail : ∀ i, 1 ≤ i → i ≤ 2 →
      ∃ e, attemptOnce sessionGetW fromstringW i = .error e := by
    intro i h1 h2
    refine ⟨.requestException "temporary failure", ?_⟩
    interval_cases i
    · rfl
    · rfl
  have hok : ∃ root, attemptOnce sessionGetW fromstringW 3 = .ok root :=
    ⟨respNode0, rfl⟩
  have h := (get_xml_retry_spec sessionGetW fromstringW 1 3).2.2.1 2
    (by omega) hfail hok
  rw [h]
  rfl

/-- `FIVBService._track(n)`: increment the run's request counter by `n`,
then raise `RuntimeError` (the spec's BudgetExceededError, carrying the
observed count and the ceiling) when the counter strictly exceeds the
ceiling. The new counter is returned alongside the outcome because the
increment persists even when the error is raised. -/
def track (ceiling count n : Nat) : Nat × Option PyExn :=
  let c := count + n
  (c, if c > ceiling then some (.runtimeError c ceiling) else none)

/-- `m` successive tracked calls (`_track()` with the default `n = 1`)
starting from a fresh counter, stopping at the first raised error (the
source never catches the error around `_track` itself). -/
def trackCalls (ceiling : Nat) : Nat → Nat × Option PyExn
  | 0 => (0, none)
  | m + 1 =>
    match trackCalls ceiling m with
    | (c, some err) => (c, some err)
    | (c, none) => track ceiling c 1

/-- C4: with ceiling `C`, issuing exactly `C` tracked calls succeeds (no
error and the counter reads `C`); the `(C + 1)`-th tracked call fails
with a `RuntimeError` identifying the observed count `C + 1` and the
ceiling `C`; and this failure is not retried — any further tracked calls
leave the raised error and the counter unchanged. -/
theorem track_budget_spec (C : Nat) :
    trackCalls C C = (C, none) ∧
    trackCalls C (C + 1) = (C + 1, some (.runtimeError (C + 1) C)) ∧
    (∀ j, trackCalls C (C + 1 + j) =
      (C + 1, some (.runtimeError (C + 1) C))) := by
  have hok : ∀ m, m ≤ C → trackCalls C m = (m, none) := by
    intro m
    induction m with
    | zero => intro h; rfl
    | succ m ih =>
      intro h
      unfold trackCalls
      rw [ih (by omega)]
      show track C m 1 = (m + 1, none)
      simp only [track]
      rw [if_neg (by omega)]
  have h1 := hok C (le_refl C)
  have h2 : trackCalls C (C + 1) = (C + 1, some (.runtimeError (C + 1) C)) := by
    unfold trackCalls
    rw [h1]
    show track C C 1 = (C + 1, some (.runtimeError (C + 1) C))
    simp only [track]
    rw [if_pos (by omega)]
  refine ⟨h1, h2, ?_⟩
  intro j
  induction j with
  | zero => exact h2
  | succ j ih =>
    have hc : C + 1 + (j + 1) = (C + 1 + j) + 1 := by omega
    rw [hc]
    unfold trackCalls
    rw [ih]

/-- `_parse_date_yyyy_mm_dd`: raises `ValueError` on a malformed value
(the `Except.error` branch). -/
def parse_date_yyyy_mm_dd (value : String) : Except PyExn Int :=
  match pyStrptimeDate value with
  | some d => .ok d
  | none => .error .valueError

/-- The per-record loop of `parse_event_list`: a record with a
non-numeric `No` or with a missing boundary date is skipped
(`continue`); a present but malformed date raises out of the whole loop,
since the source wraps only the `int` conversion in `try`. -/
def parseEventNodes : List XmlNode → Except PyExn (List Event)
  | [] => .ok []
  | ev :: rest =>
    match pyInt (attrGetD ev "No" "0") with
    | none => parseEventNodes rest
    | some no =>
      let code := attrGetD ev "Code" ""
      let name := attrGetD ev "Name" ""
      let s := attrGetD ev "StartDate" ""
      let e := attrGetD ev "EndDate" ""
      if s = "" ∨ e = "" then parseEventNodes rest
      else
        match parse_date_yyyy_mm_dd s with
        | .error err => .error err
        | .ok start_date =>
          match parse_date_yyyy_mm_dd e with
          | .error err => .error err
          | .ok end_date =>
            match parseEventNodes rest with
            | .error err => .error err
            | .ok restEvents =>
              .ok (⟨no, code, name, start_date, end_date⟩ :: restEvents)

/-- `parse_event_list`. -/
def parse_event_list (root : XmlNode) : Except PyExn (List Event) :=
  parseEventNodes (findallTag root "Event")

theorem parse_date_error_eq (v : String) (err : PyExn)
    (h : parse_date_yyyy_mm_dd v = .error err) : err = .valueError := by
  unfold parse_date_yyyy_mm_dd at h
  cases hsd : pyStrptimeDate v with
  | some d =>
    rw [hsd] at h
    exact absurd h (by simp)
  | none =>
    rw [hsd] at h
    simp only at h
    have h2 : PyExn.valueError = err := by simpa using h
    exact h2.symm


theorem parseEventNodes_cons (ev : XmlNode) (rest : List XmlNode) :
    parseEventNodes (ev :: rest) =
      match pyInt (attrGetD ev "No" "0") with
      | none => parseEventNodes rest
      | some no =>
        if attrGetD ev "StartDate" "" = "" ∨ attrGetD ev "EndDate" "" = "" then
          parseEventNodes rest
        else
          match parse_date_yyyy_mm_dd (attrGetD ev "StartDate" "") with
          | .error err => .error err
          | .ok start_date =>
            match parse_date_yyyy_mm_dd (attrGetD ev "EndDate" "") with
            | .error err => .error err
            | .ok end_date =>
              match parseEventNodes rest with
              | .error err => .error err
              | .ok restEvents =>
                .ok (⟨no, attrGetD ev "Code" "", attrGetD ev "Name" "",
                  start_date, end_date⟩ :: restEvents) := rfl

theorem parseEventNodes_skip (bad : XmlNode)
    (hskip : pyInt (attrGetD bad "No" "0") = none ∨
      attrGetD bad "StartDate" "" = "" ∨ attrGetD bad "EndDate" "" = "") :
    ∀ pre rest,
      parseEventNodes (pre ++ bad :: rest) = parseEventNodes (pre ++ rest) := by
  intro pre
  induction pre with
  | nil =>
    intro rest
    simp only [List.nil_append]
    rw [parseEventNodes_cons]
    cases hpi : pyInt (attrGetD bad "No" "0") with
    | none => rfl
    | some n =>
      dsimp only
      have hd : attrGetD bad "StartDate" "" = "" ∨ attrGetD bad "EndDate" "" = "" := by
        rcases hskip with h | h
        · rw [hpi] at h
          exact absurd h (by simp)
        · exact h
      rw [if_pos hd]
  | cons p pre ih =>
    intro rest
    simp only [List.cons_append]
    rw [parseEventNodes_cons, parseEventNodes_cons]
    cases pyInt (attrGetD p "No" "0") with
    | none => exact ih rest
    | some n =>
      dsimp only
      by_cases hd : attrGetD p "StartDate" "" = "" ∨ attrGetD p "EndDate" "" = ""
      · rw [if_pos hd, if_pos hd]
        exact ih rest
      · rw [if_neg hd, if_neg hd]
        cases parse_date_yyyy_mm_dd (attrGetD p "StartDate" "") with
        | error err => rfl
        | ok sd =>
          dsimp only
          cases parse_date_yyyy_mm_dd (attrGetD p "EndDate" "") with
          | error err => rfl
          | ok ed =>
            dsimp only
            rw [ih rest]

set_option maxHeartbeats 1000000 in
theorem parseEventNodes_malformed (bad : XmlNode) (n : Int)
    (hno : pyInt (attrGetD bad "No" "0") = some n)
    (hs : attrGetD bad "StartDate" "" ≠ "")
    (he : attrGetD bad "EndDate" "" ≠ "")
    (hmal : pyStrptimeDate (attrGetD bad "StartDate" "") = none ∨
      pyStrptimeDate (attrGetD bad "EndDate" "") = none) :
    ∀ pre rest, parseEventNodes (pre ++ bad :: rest) = .error .valueError := by
  intro pre
  induction pre with
  | nil =>
    intro rest
    simp only [List.nil_append]
    rw [parseEventNodes_cons, hno]
    dsimp only
    rw [if_neg (by tauto)]
    rcases hmal with hm | hm
    · have hpd : parse_date_yyyy_mm_dd (attrGetD bad "StartDate" "") =
          .error .valueError := by
        unfold parse_date_yyyy_mm_dd
        rw [hm]
      rw [hpd]
    · cases hsd : parse_date_yyyy_mm_dd (attrGetD bad "StartDate" "") with
      | error err => rw [parse_date_error_eq _ err hsd]
      | ok sd =>
        dsimp only
        have hpd : parse_date_yyyy_mm_dd (attrGetD bad "EndDate" "") =
            .error .valueError := by
          unfold parse_date_yyyy_mm_dd
          rw [hm]
        rw [hpd]
  | cons p pre ih =>
    intro rest
    simp only [List.cons_append]
    rw [parseEventNodes_cons]
    cases pyInt (attrGetD p "No" "0") with
    | none => exact ih rest
    | some m =>
      dsimp only
      by_cases hd : attrGetD p "StartDate" "" = "" ∨ attrGetD p "EndDate" "" = ""
      · rw [if_pos hd]
        exact ih rest
      · rw [if_neg hd]
        cases herr : parse_date_yyyy_mm_dd (attrGetD p "StartDate" "") with
        | error err => rw [parse_date_error_eq _ err herr]
        | ok sd =>
          dsimp only
          cases herr2 : parse_date_yyyy_mm_dd (attrGetD p "EndDate" "") with
          | error err => rw [parse_date_error_eq _ err herr2]
          | ok ed =>
            dsimp only
            rw [ih rest]

/-- C7 (amended): a single record with a non-numeric identifier or with a
missing boundary date is dropped while the remaining records of the
batch are still parsed; but a record whose present StartDate or EndDate
value is malformed raises `ValueError` out of `parse_event_list` for the
whole response, instead of dropping only that record. -/
theorem parse_event_list_amended (pre rest : List XmlNode) (bad : XmlNode) :
    (pyInt (attrGetD bad "No" "0") = none →
      parseEventNodes (pre ++ bad :: rest) = parseEventNodes (pre ++ rest)) ∧
    (attrGetD bad "StartDate" "" = "" ∨ attrGetD bad "EndDate" "" = "" →
      parseEventNodes (pre ++ bad :: rest) = parseEventNodes (pre ++ rest)) ∧
    (∀ root n, findallTag root "Event" = pre ++ bad :: rest →
      pyInt (attrGetD bad "No" "0") = some n →
      attrGetD bad "StartDate" "" ≠ "" →
      attrGetD bad "EndDate" "" ≠ "" →
      (pyStrptimeDate (attrGetD bad "StartDate" "") = none ∨
        pyStrptimeDate (attrGetD bad "EndDate" "") = none) →
      parse_event_list root = .error .valueError) := by
  refine ⟨?_, ?_, ?_⟩
  · intro h
    exact parseEventNodes_skip bad (Or.inl h) pre rest
  · intro h
    exact parseEventNodes_skip bad (Or.inr h) pre rest
  · intro root n hroot hno hs he hmal
    unfold parse_event_list
    rw [hroot]
    exact parseEventNodes_malformed bad n hno hs he hmal pre rest

def eventGoodNode : XmlNode :=
  .mk "Event" [("No", "1"), ("Code", "EV1"), ("Name", "Good"),
    ("StartDate", "2025-06-01"), ("EndDate", "2025-06-02")] none []

def eventBadDateNode : XmlNode :=
  .mk "Event" [("No", "2"), ("Code", "EV2"), ("Name", "Bad"),
    ("StartDate", "garbage"), ("EndDate", "2025-06-02")] none []

def eventBadNoNode : XmlNode :=
  .mk "Event" [("No", "x"), ("Code", "EV3"), ("Name", "NoNum"),
    ("StartDate", "2025-06-01"), ("EndDate", "2025-06-02")] none []

def eventMissingDateNode : XmlNode :=
  .mk "Event" [("No", "4"), ("Code", "EV4"), ("Name", "NoDate")] none []

def eventBadEndDateNode : XmlNode :=
  .mk "Event" [("No", "3"), ("Code", "EV5"), ("Name", "BadEnd"),
    ("StartDate", "2025-06-01"), ("EndDate", "nonsense")] none []

def rootMalformedDate : XmlNode :=
  .mk "Response" [] none [eventGoodNode, eventBadDateNode]

def rootMalformedEnd : XmlNode :=
  .mk "Response" [] none [eventGoodNode, eventBadEndDateNode]

def rootGoodOnly : XmlNode :=
  .mk "Response" [] none [eventGoodNode]

/-- C7 counterexample: a batch with one valid record and one record with
a present but malformed StartDate makes `parse_event_list` raise
`ValueError` for the whole response — the valid record is lost — even
though the valid record parses on its own. -/
theorem parse_event_list_malformed_counterexample :
    parse_event_list rootMalformedDate = .error .valueError ∧
    parse_event_list rootGoodOnly =
      .ok [⟨1, "EV1", "Good", daysFromCivil 2025 6 1, daysFromCivil 2025 6 2⟩] := by
  constructor
  · rfl
  · rfl

/-- Witness for C7 (amended) at concrete inputs: a record with a
non-numeric identifier is dropped, a record with missing dates is
dropped, and a record with a malformed StartDate — or a valid StartDate
but malformed EndDate — aborts the whole response. -/
theorem parse_event_list_amended_witness :
    parseEventNodes [eventBadNoNode, eventGoodNode] =
      parseEventNodes [eventGoodNode] ∧
    parseEventNodes [eventMissingDateNode, eventGoodNode] =
      parseEventNodes [eventGoodNode] ∧
    parse_event_list rootMalformedDate = .error .valueError ∧
    parse_event_list rootMalformedEnd = .error .valueError := by
  refine ⟨?_, ?_, ?_, ?_⟩
  · exact (parse_event_list_amended [] [eventGoodNode] eventBadNoNode).1 rfl
  · exact (parse_event_list_amended [] [eventGoodNode] eventMissingDateNode).2.1
      (Or.inl rfl)
  · exact (parse_event_list_amended [eventGoodNode] [] eventBadDateNode).2.2
      rootMalformedDate 2 rfl rfl (by decide) (by decide) (Or.inl rfl)
  · exact (parse_event_list_amended [eventGoodNode] [] eventBadEndDateNode).2.2
      rootMalformedEnd 3 rfl rfl (by decide) (by decide) (Or.inr rfl)

/-- `_collect_from_event_node`: every `BeachTournament` descendant of the
node; a non-numeric `No` is skipped (`continue`), and the raw gender code
is mapped through the dict `{"0": "M", "1": "W"}` with the raw value
itself as the lookup default. -/
def collect_from_event_node (event_node : XmlNode) : List BeachTournamentRef :=
  (findallTag event_node "BeachTournament").filterMap (fun bt =>
    match pyInt (attrGetD bt "No" "0") with
    | none => none
    | some tno =>
      let gender_raw := attrGet bt "Gender"
      let gender : Option String :=
        match gender_raw with
        | some "0" => some "M"
        | some "1" => some "W"
        | g => g
      some ⟨tno, gender⟩)

/-- Strategy 1 of `parse_event_tournaments`: direct extraction from every
`Event` descendant of the response root. -/
def strategyDirect (root : XmlNode) : List BeachTournamentRef :=
  (findallTag root "Event").flatMap collect_from_event_node

/-- Per-`Content`-node step of strategy 2: strip the node text, skip when
empty, `html.unescape` it, strip a leading byte-order marker and
surrounding whitespace, skip when empty, then re-parse the nested
document; a `ParseError` (`fromstring` returning `none`) is swallowed,
contributing nothing. -/
def contentTextRefs (unescape : String → String)
    (fromstring : String → Option XmlNode) (c : XmlNode) :
    List BeachTournamentRef :=
  let t0 := pyStrip (textOrEmpty c)
  if t0 = "" then []
  else
    let t1 := pyStrip (pyLstripBom (unescape t0))
    if t1 = "" then []
    else
      match fromstring t1 with
      | none => []
      | some inner => collect_from_event_node inner

/-- Strategy 2 of `parse_event_tournaments`: decode every `Content`
element's text payload. -/
def strategyContentText (unescape : String → String)
    (fromstring : String → Option XmlNode) (root : XmlNode) :
    List BeachTournamentRef :=
  (findallTag root "Content").flatMap (contentTextRefs unescape fromstring)

/-- Per-node step of strategy 3: the `Content` attribute, when present
and non-empty (`if not content_attr: continue`), is unescaped,
BOM-stripped, stripped, and re-parsed, with parse failures swallowed. -/
def contentAttrRefs (unescape : String → String)
    (fromstring : String → Option XmlNode) (node : XmlNode) :
    List BeachTournamentRef :=
  match attrGet node "Content" with
  | none => []
  | some ca =>
    if ca = "" then []
    else
      let t := pyStrip (pyLstripBom (unescape ca))
      if t = "" then []
      else
        match fromstring t with
        | none => []
        | some inner => collect_from_event_node inner

/-- Strategy 3 of `parse_event_tournaments`: decode the `Content`
attribute of any element reached by `root.iter()`. -/
def strategyContentAttr (unescape : String → String)
    (fromstring : String → Option XmlNode) (root : XmlNode) :
    List BeachTournamentRef :=
  (iterNodes root).flatMap (contentAttrRefs unescape fromstring)

/-- `parse_event_tournaments`: the three strategies with the source's
`if refs: return refs` early exits. -/
def parse_event_tournaments (unescape : String → String)
    (fromstring : String → Option XmlNode) (root : XmlNode) :
    List BeachTournamentRef :=
  let refs1 := strategyDirect root
  if refs1 ≠ [] then refs1
  else
    let refs2 := strategyContentText unescape fromstring root
    if refs2 ≠ [] then refs2
    else strategyContentAttr unescape fromstring root

/-- C6: `parse_event_tournaments` tries its three extraction strategies
in a fixed order — (1) direct `BeachTournament` records under `Event`
descendants of the response root, (2) decoding the escaped document held
in a `Content` element's text (unescape, strip a leading byte-order
marker, re-parse) and extracting from the nested root, (3) the same
decoding applied to a `Content` attribute on any element — stopping at
the first strategy with a non-empty result; a `Content` node whose
decoded text fails to re-parse is swallowed and contributes nothing
while the remaining nodes are still decoded; and when every strategy is
empty the function returns the empty list as a valid outcome, never an
error. -/
theorem parse_event_tournaments_strategies (unescape : String → String)
    (fromstring : String → Option XmlNode) (root : XmlNode) :
    (strategyDirect root ≠ [] →
      parse_event_tournaments unescape fromstring root = strategyDirect root) ∧
    (strategyDirect root = [] →
      strategyContentText unescape fromstring root ≠ [] →
      parse_event_tournaments unescape fromstring root =
        strategyContentText unescape fromstring root) ∧
    (strategyDirect root = [] →
      strategyContentText unescape fromstring root = [] →
      parse_event_tournaments unescape fromstring root =
        strategyContentAttr unescape fromstring root) ∧
    (∀ pre c post, findallTag root "Content" = pre ++ c :: post →
      fromstring (pyStrip (pyLstripBom (unescape (pyStrip (textOrEmpty c))))) =
        none →
      strategyContentText unescape fromstring root =
        (pre ++ post).flatMap (contentTextRefs unescape fromstring)) ∧
    (strategyDirect root = [] →
      strategyContentText unescape fromstring root = [] →
      strategyContentAttr unescape fromstring root = [] →
      parse_event_tournaments unescape fromstring root = []) := by
  refine ⟨?_, ?_, ?_, ?_, ?_⟩
  · intro h1
    unfold parse_event_tournaments
    rw [if_pos h1]
  · intro h1 h2
    unfold parse_event_tournaments
    rw [if_neg (by simpa using h1), if_pos h2]
  · intro h1 h2
    unfold parse_event_tournaments
    rw [if_neg (by simpa using h1), if_neg (by simpa using h2)]
  · intro pre c post hc hfail
    have hcc : contentTextRefs unescape fromstring c = [] := by
      unfold contentTextRefs
      by_cases h0 : pyStrip (textOrEmpty c) = ""
      · rw [if_pos h0]
      · rw [if_neg h0]
        dsimp only
        by_cases h1 : pyStrip (pyLstripBom (unescape (pyStrip (textOrEmpty c)))) = ""
        · rw [if_pos h1]
        · rw [if_neg h1, hfail]
    unfold strategyContentText
    rw [hc, List.flatMap_append, List.flatMap_cons, hcc, List.nil_append,
      List.flatMap_append]
  · intro h1 h2 h3
    unfold parse_event_tournaments
    rw [if_neg (by simpa using h1), if_neg (by simpa using h2)]
    exact h3

def innerEventNode : XmlNode :=
  .mk "Event" [] none
    [.mk "BeachTournament" [("No", "8137"), ("Gender", "0")] none [],
     .mk "BeachTournament" [("No", "8136"), ("Gender", "1")] none []]

def contentNodeGood : XmlNode := .mk "Content" [] (some "PAYLOAD") []

def contentNodeBad : XmlNode := .mk "Content" [] (some "BROKEN") []

def rootContent : XmlNode :=
  .mk "Response" [] none
    [.mk "Event" [("No", "555")] none [], contentNodeBad, contentNodeGood]

def unescapeW : String → String := fun s => s

def fromstringW2 : String → Option XmlNode :=
  fun s => if s = "PAYLOAD" then some innerEventNode else none

/-- Witness for C6 at a concrete input: direct extraction is empty, the
first `Content` node's payload is malformed and is swallowed, the second
decodes to two tournaments that strategy 2 returns (gender codes mapped
`"0" ↦ "M"`, `"1" ↦ "W"`). -/
theorem parse_event_tournaments_strategies_witness :
    parse_event_tournaments unescapeW fromstringW2 rootContent =
      [⟨8137, some "M"⟩, ⟨8136, some "W"⟩] ∧
    strategyContentText unescapeW fromstringW2 rootContent =
      ([] ++ [contentNodeGood]).flatMap (contentTextRefs unescapeW fromstringW2) := by
  constructor
  · have h := (parse_event_tournaments_strategies unescapeW fromstringW2
      rootContent).2.1 rfl (by decide)
    rw [h]
    rfl
  · exact (parse_event_tournaments_strategies unescapeW fromstringW2
      rootContent).2.2.2.1 [] contentNodeBad [contentNodeGood] rfl rfl

/-- The typed query intents the query builders render. The wire encoding
(the `XmlRequest.asmx` URL holding a percent-encoded XML body) is
abstracted to the intent, which determines the URL injectively; no claim
concerns the URL text itself. -/
inductive Query where
  | getEventList (startDate : Int) (endDate : Int)
  | getEvent (no : Int)
  | getBeachTeamList (noTournament : Int) (status : String)
deriving DecidableEq

/-- `q_get_event_list`. -/
def q_get_event_list (startDate endDate : Int) : Query :=
  .getEventList startDate endDate

/-- `q_get_event`. -/
def q_get_event (no : Int) : Query :=
  .getEvent no

/-- `q_get_beach_team_list`. -/
def q_get_beach_team_list (noTournament : Int) (status : String) : Query :=
  .getBeachTeamList noTournament status

/-- Python `a or b` on two optional strings (`None` and `""` are falsy). -/
def pyOrStr (a b : Option String) : Option String :=
  match a with
  | some s => if s = "" then b else some s
  | none => b

/-- Python `str.upper()` (ASCII case mapping). -/
def pyUpper (s : String) : String :=
  String.mk (s.data.map Char.toUpper)

/-- `parse_teams`: one `BeachTeam` per `BeachTeam` descendant of the
response root; rank and player numbers parse only when present and
all-digit; the country code prefers `Player1FederationCode`, falls back
to `CountryCode` or `NF`, and a truthy value is stripped, uppercased and
discarded unless exactly 3 characters long. -/
def parse_teams (root : XmlNode) (status : String) : List BeachTeam :=
  (findallTag root "BeachTeam").map (fun node =>
    let name := attrGetD node "Name" ""
    let rank := attrGet node "Rank"
    let rank_i : Option Int :=
      match rank with
      | some r =>
        if r ≠ "" ∧ pyIsdigit r = true then some (natOfDigits r : Int) else none
      | none => none
    let p1 := attrGet node "NoPlayer1"
    let p2 := attrGet node "NoPlayer2"
    let no1 : Option Int :=
      match p1 with
      | some s =>
        if s ≠ "" ∧ pyIsdigit s = true then some (natOfDigits s : Int) else none
      | none => none
    let no2 : Option Int :=
      match p2 with
      | some s =>
        if s ≠ "" ∧ pyIsdigit s = true then some (natOfDigits s : Int) else none
      | none => none
    let cc0 := attrGet node "Player1FederationCode"
    let cc1 : Option String :=
      match cc0 with
      | some s =>
        if s = "" then pyOrStr (attrGet node "CountryCode") (attrGet node "NF")
        else some s
      | none => pyOrStr (attrGet node "CountryCode") (attrGet node "NF")
    let cc2 : Option String :=
      match cc1 with
      | some s =>
        if s ≠ "" then
          let u := pyUpper (pyStrip s)
          if u.length ≠ 3 then none else some u
        else some s
      | none => none
    ⟨no1, no2, name, rank_i, status, cc2⟩)

/-- `FIVBService.fetch_upcoming_events`: one tracked `GetEventList`
request covering the whole year, then the inclusive
`[today, today + window_days]` filter on start dates. The `_today(tz)`
clock read is the `today` parameter and the client response function is
`clientGet`; the request counter is threaded explicitly. -/
def fetch_upcoming_events (clientGet : Query → Except PyExn XmlNode)
    (today : Int) (year : Nat) (window_days : Int) (ceiling count : Nat) :
    Except PyExn (List Event) × Nat :=
  let url := q_get_event_list (daysFromCivil year 1 1) (daysFromCivil year 12 31)
  match track ceiling count 1 with
  | (count', some err) => (.error err, count')
  | (count', none) =>
    match clientGet url with
    | .error err => (.error err, count')
    | .ok root =>
      match parse_event_list root with
      | .error err => (.error err, count')
      | .ok all_events =>
        let future_window_end := today + window_days
        (.ok (all_events.filter (fun ev =>
          decide (today ≤ ev.start_date ∧ ev.start_date ≤ future_window_end))),
          count')

/-- `FIVBService.fetch_event_tournaments`: one tracked `GetEvent` request
followed by the tolerant tournament parser. -/
def fetch_event_tournaments (clientGet : Query → Except PyExn XmlNode)
    (unescape : String → String) (fromstring : String → Option XmlNode)
    (ceiling count : Nat) (event_no : Int) :
    Except PyExn (List BeachTournamentRef) × Nat :=
  let url := q_get_event event_no
  match track ceiling count 1 with
  | (count', some err) => (.error err, count')
  | (count', none) =>
    match clientGet url with
    | .error err => (.error err, count')
    | .ok root => (.ok (parse_event_tournaments unescape fromstring root), count')

/-- The status loop of `FIVBService.fetch_teams_for_tournament`: for each
status one tracked team-list request; an `IndexError` from the client
breaks out of the loop keeping the teams collected so far, while any
other exception propagates. -/
def fetchTeamsLoop (clientGet : Query → Except PyExn XmlNode) (ceiling : Nat)
    (tournament_no : Int) :
    List String → Nat → List BeachTeam → Except PyExn (List BeachTeam) × Nat
  | [], count, acc => (.ok acc, count)
  | status :: rest, count, acc =>
    match track ceiling count 1 with
    | (count', some err) => (.error err, count')
    | (count', none) =>
      match clientGet (q_get_beach_team_list tournament_no status) with
      | .error .indexError => (.ok acc, count')
      | .error err => (.error err, count')
      | .ok root =>
        fetchTeamsLoop clientGet ceiling tournament_no rest count'
          (acc ++ parse_teams root status)

/-- `FIVBService.fetch_teams_for_tournament`: the four status queries in
fixed order, then `dedupe_teams` over everything collected. -/
def fetch_teams_for_tournament (clientGet : Query → Except PyExn XmlNode)
    (ceiling count : Nat) (tournament_no : Int) :
    Except PyExn (List BeachTeam) × Nat :=
  match fetchTeamsLoop clientGet ceiling tournament_no STATUSES_TO_FETCH count [] with
  | (.ok teams, count') => (.ok (dedupe_teams teams), count')
  | (.error err, count') => (.error err, count')

/-- The tournament loop of `FIVBService.run`: build the
`teams_by_tournament` dict (insertion-ordered, overwriting on a repeated
key); an exception from a per-tournament fetch propagates. -/
def fetchTournamentsTeams (clientGet : Query → Except PyExn XmlNode)
    (ceiling : Nat) :
    List BeachTournamentRef → Nat → List (Int × List BeachTeam) →
      Except PyExn (List (Int × List BeachTeam)) × Nat
  | [], count, acc => (.ok acc, count)
  | tref :: rest, count, acc =>
    match fetch_teams_for_tournament clientGet ceiling count tref.tournament_no with
    | (.error err, count') => (.error err, count')
    | (.ok teams, count') =>
      fetchTournamentsTeams clientGet ceiling rest count'
        (assocSet acc tref.tournament_no teams)

/-- The event loop of `FIVBService.run`: a failing `GetEvent` fetch is
caught, logged and skipped (`continue`), while an exception from the
per-tournament fetches propagates and aborts the run. -/
def runEvents (clientGet : Query → Except PyExn XmlNode)
    (unescape : String → String) (fromstring : String → Option XmlNode)
    (ceiling : Nat) :
    List Event → Nat → Except PyExn (List EventTeamsSnapshot) × Nat
  | [], count => (.ok [], count)
  | ev :: rest, count =>
    match fetch_event_tournaments clientGet unescape fromstring ceiling count
        ev.no with
    | (.error _, count') =>
      runEvents clientGet unescape fromstring ceiling rest count'
    | (.ok tournaments, count') =>
      match fetchTournamentsTeams clientGet ceiling tournaments count' [] with
      | (.error err, count'') => (.error err, count'')
      | (.ok teams_by_tournament, count'') =>
        match runEvents clientGet unescape fromstring ceiling rest count'' with
        | (.error err, c₃) => (.error err, c₃)
        | (.ok snaps, c₃) =>
          (.ok (⟨ev, tournaments, teams_by_tournament⟩ :: snaps), c₃)

/-- `FIVBService.run(year)`: fetch the upcoming-events window (with the
`window_days` default of 28), then process each selected event. -/
def run (clientGet : Query → Except PyExn XmlNode)
    (unescape : String → String) (fromstring : String → Option XmlNode)
    (today : Int) (ceiling count : Nat) (year : Nat) :
    Except PyExn (List EventTeamsSnapshot) × Nat :=
  match fetch_upcoming_events clientGet today year 28 ceiling count with
  | (.error err, c) => (.error err, c)
  | (.ok events, c) => runEvents clientGet unescape fromstring ceiling events c

/-- C5: the event-window selection of `fetch_upcoming_events` is
inclusive on both ends: when the fetch succeeds with selection `sel`
parsed from the response, an event whose start date is exactly `today`,
or exactly `today + window_days` (a non-negative lookahead, default 28),
is selected, while an event whose start date is one day before `today`
or one day after `today + window_days` is not. -/
theorem fetch_upcoming_events_window (clientGet : Query → Except PyExn XmlNode)
    (today : Int) (year : Nat) (window_days : Int) (ceiling count : Nat)
    (sel : List Event) (count' : Nat) (root : XmlNode) (evs : List Event)
    (hw : 0 ≤ window_days)
    (hfetch : fetch_upcoming_events clientGet today year window_days ceiling
      count = (.ok sel, count'))
    (hroot : clientGet (q_get_event_list (daysFromCivil year 1 1)
      (daysFromCivil year 12 31)) = .ok root)
    (hparse : parse_event_list root = .ok evs) :
    ∀ ev ∈ evs,
      ((ev.start_date = today ∨ ev.start_date = today + window_days) →
        ev ∈ sel) ∧
      ((ev.start_date = today - 1 ∨ ev.start_date = today + window_days + 1) →
        ev ∉ sel) := by
  have hsel : sel = evs.filter (fun ev =>
      decide (today ≤ ev.start_date ∧ ev.start_date ≤ today + window_days)) := by
    unfold fetch_upcoming_events at hfetch
    simp only [track] at hfetch
    by_cases hb : count + 1 > ceiling
    · rw [if_pos hb] at hfetch
      dsimp only at hfetch
      exact absurd (congrArg Prod.fst hfetch) (by simp)
    · rw [if_neg hb] at hfetch
      dsimp only at hfetch
      rw [hroot] at hfetch
      dsimp only at hfetch
      rw [hparse] at hfetch
      dsimp only at hfetch
      have := congrArg Prod.fst hfetch
      simp only at this
      exact (Except.ok.injEq _ _ ▸ this).symm
  intro ev hev
  subst hsel
  constructor
  · intro hcase
    rw [List.mem_filter]
    refine ⟨hev, ?_⟩
    rw [decide_eq_true_eq]
    rcases hcase with h | h
    · constructor
      · rw [h]
      · rw [h]; omega
    · constructor
      · rw [h]; omega
      · rw [h]
  · intro hcase hmem
    rw [List.mem_filter, decide_eq_true_eq] at hmem
    rcases hcase with h | h
    · omega
    · omega

def eventsWindowRoot : XmlNode :=
  .mk "Response" [] none
    [.mk "Event" [("No", "101"), ("Code", "A"), ("Name", "AtToday"),
       ("StartDate", "2099-01-01"), ("EndDate", "2099-01-02")] none [],
     .mk "Event" [("No", "102"), ("Code", "B"), ("Name", "AtEnd"),
       ("StartDate", "2099-01-29"), ("EndDate", "2099-01-30")] none [],
     .mk "Event" [("No", "103"), ("Code", "C"), ("Name", "Past"),
       ("StartDate", "2098-12-31"), ("EndDate", "2099-01-01")] none [],
     .mk "Event" [("No", "104"), ("Code", "D"), ("Name", "Far"),
       ("StartDate", "2099-01-30"), ("EndDate", "2099-01-31")] none []]

def clientGetW5 : Query → Except PyExn XmlNode :=
  fun _ => .ok eventsWindowRoot

def eventAtToday : Event :=
  ⟨101, "A", "AtToday", daysFromCivil 2099 1 1, daysFromCivil 2099 1 2⟩

def eventAtEnd : Event :=
  ⟨102, "B", "AtEnd", daysFromCivil 2099 1 29, daysFromCivil 2099 1 30⟩

def eventPast : Event :=
  ⟨103, "C", "Past", daysFromCivil 2098 12 31, daysFromCivil 2099 1 1⟩

def eventFar : Event :=
  ⟨104, "D", "Far", daysFromCivil 2099 1 30, daysFromCivil 2099 1 31⟩

def evsWindow0 : List Event := [eventAtToday, eventAtEnd, eventPast, eventFar]

def selWindow0 : List Event := [eventAtToday, eventAtEnd]

/-- Witness for C5 at a concrete input: with `today = 2099-01-01` and a
28-day window, the events starting exactly at `today` and exactly at
`today + 28` are selected, while the events one day before and one day
after the window are not. -/
theorem fetch_upcoming_events_window_witness :
    (eventAtToday ∈ selWindow0 ∧ eventAtEnd ∈ selWindow0) ∧
    (eventPast ∉ selWindow0 ∧ eventFar ∉ selWindow0) := by
  have h := fetch_upcoming_events_window clientGetW5 (daysFromCivil 2099 1 1)
    2099 28 20 0 selWindow0 1 eventsWindowRoot evsWindow0
    (by decide) (by rfl) (by rfl) (by rfl)
  refine ⟨⟨?_, ?_⟩, ?_, ?_⟩
  · exact (h eventAtToday (by decide)).1 (Or.inl (by decide))
  · exact (h eventAtEnd (by decide)).1 (Or.inr (by decide))
  · exact (h eventPast (by decide)).2 (Or.inl (by decide))
  · exact (h eventFar (by decide)).2 (Or.inr (by decide))

theorem fetchTeamsLoop_cons (clientGet : Query → Except PyExn XmlNode)
    (ceiling : Nat) (tournament_no : Int) (status : String)
    (rest : List String) (count : Nat) (acc : List BeachTeam) :
    fetchTeamsLoop clientGet ceiling tournament_no (status :: rest) count acc =
      match track ceiling count 1 with
      | (count', some err) => (.error err, count')
      | (count', none) =>
        match clientGet (q_get_beach_team_list tournament_no status) with
        | .error .indexError => (.ok acc, count')
        | .error err => (.error err, count')
        | .ok root =>
          fetchTeamsLoop clientGet ceiling tournament_no rest count'
            (acc ++ parse_teams root status) := rfl

/-- C10: within the four status-filtered team fetches of
`fetch_teams_for_tournament`, a client call raising `IndexError`
silently ends the status loop and the fetch returns the deduplicated
teams collected from the statuses fetched so far, while a client call
raising any other exception propagates that exception out of the
per-tournament fetch; a successful call extends the collection and
continues with the next status. -/
theorem fetch_teams_index_error_spec (clientGet : Query → Except PyExn XmlNode)
    (ceiling : Nat) (tournament_no : Int) :
    (∀ status rest count acc, count + 1 ≤ ceiling →
      clientGet (q_get_beach_team_list tournament_no status) =
        .error .indexError →
      fetchTeamsLoop clientGet ceiling tournament_no (status :: rest) count acc =
        (.ok acc, count + 1)) ∧
    (∀ status rest count acc err, count + 1 ≤ ceiling →
      err ≠ PyExn.indexError →
      clientGet (q_get_beach_team_list tournament_no status) = .error err →
      fetchTeamsLoop clientGet ceiling tournament_no (status :: rest) count acc =
        (.error err, count + 1)) ∧
    (∀ status rest count acc root, count + 1 ≤ ceiling →
      clientGet (q_get_beach_team_list tournament_no status) = .ok root →
      fetchTeamsLoop clientGet ceiling tournament_no (status :: rest) count acc =
        fetchTeamsLoop clientGet ceiling tournament_no rest (count + 1)
          (acc ++ parse_teams root status)) ∧
    (∀ count teams count',
      fetchTeamsLoop clientGet ceiling tournament_no STATUSES_TO_FETCH count [] =
        (.ok teams, count') →
      fetch_teams_for_tournament clientGet ceiling count tournament_no =
        (.ok (dedupe_teams teams), count')) ∧
    (∀ count err count',
      fetchTeamsLoop clientGet ceiling tournament_no STATUSES_TO_FETCH count [] =
        (.error err, count') →
      fetch_teams_for_tournament clientGet ceiling count tournament_no =
        (.error err, count')) := by
  refine ⟨?_, ?_, ?_, ?_, ?_⟩
  · intro status rest count acc hc hcl
    rw [fetchTeamsLoop_cons]
    simp only [track]
    rw [if_neg (by omega)]
    dsimp only
    rw [hcl]
  · intro status rest count acc err hc hne hcl
    rw [fetchTeamsLoop_cons]
    simp only [track]
    rw [if_neg (by omega)]
    dsimp only
    rw [hcl]
    cases err with
    | indexError => exact absurd rfl hne
    | valueError => rfl
    | requestException msg => rfl
    | runtimeError a b => rfl
    | assertionError => rfl
    | otherError msg => rfl
  · intro status rest count acc root hc hcl
    rw [fetchTeamsLoop_cons]
    simp only [track]
    rw [if_neg (by omega)]
    dsimp only
    rw [hcl]
  · intro count teams count' h
    unfold fetch_teams_for_tournament
    rw [h]
  · intro count err count' h
    unfold fetch_teams_for_tournament
    rw [h]

def teamRootW : XmlNode :=
  .mk "Response" [] none
    [.mk "BeachTeam" [("Name", "T1"), ("Rank", "5"), ("NoPlayer1", "111"),
      ("NoPlayer2", "222")] none []]

def clientGetC10 : Query → Except PyExn XmlNode := fun q =>
  if q = q_get_beach_team_list 9001 "Registered" then .ok teamRootW
  else if q = q_get_beach_team_list 9001 "Withdrawn" then .error .indexError
  else if q = q_get_beach_team_list 9002 "Registered" then
    .error (.otherError "boom")
  else .ok (.mk "Response" [] none [])

/-- Witness for C10 at concrete inputs: for tournament 9001 the client
answers the Registered query and raises `IndexError` on the Withdrawn
query, so the fetch stops silently with the Registered teams; for
tournament 9002 the client raises a different exception on the first
status and the fetch propagates it. -/
theorem fetch_teams_index_error_spec_witness :
    fetch_teams_for_tournament clientGetC10 20 0 9001 =
      (.ok (dedupe_teams (([] : List BeachTeam) ++
        parse_teams teamRootW "Registered")), 2) ∧
    fetch_teams_for_tournament clientGetC10 20 0 9002 =
      (.error (.otherError "boom"), 1) := by
  constructor
  · have hS : STATUSES_TO_FETCH = "Registered" :: "Withdrawn" ::
        ["WithdrawnWithMedicalCert", "Deleted"] := rfl
    have hloop : fetchTeamsLoop clientGetC10 20 9001 STATUSES_TO_FETCH 0 [] =
        (.ok (([] : List BeachTeam) ++ parse_teams teamRootW "Registered"), 2) := by
      rw [hS, (fetch_teams_index_error_spec clientGetC10 20 9001).2.2.1
        "Registered" _ 0 [] teamRootW (by omega) rfl]
      exact (fetch_teams_index_error_spec clientGetC10 20 9001).1
        "Withdrawn" _ 1 _ (by omega) rfl
    exact (fetch_teams_index_error_spec clientGetC10 20 9001).2.2.2.1
      0 _ 2 hloop
  · have hS : STATUSES_TO_FETCH = "Registered" :: WITHDRAWN_STATES := rfl
    refine (fetch_teams_index_error_spec clientGetC10 20 9002).2.2.2.2
      0 _ 1 ?_
    rw [hS]
    exact (fetch_teams_index_error_spec clientGetC10 20 9002).2.1
      "Registered" WITHDRAWN_STATES 0 [] (.otherError "boom") (by omega)
      (by decide) rfl

theorem runEvents_cons (clientGet : Query → Except PyExn XmlNode)
    (unescape : String → String) (fromstring : String → Option XmlNode)
    (ceiling : Nat) (ev : Event) (rest : List Event) (count : Nat) :
    runEvents clientGet unescape fromstring ceiling (ev :: rest) count =
      match fetch_event_tournaments clientGet unescape fromstring ceiling count
          ev.no with
      | (.error _, count') =>
        runEvents clientGet unescape fromstring ceiling rest count'
      | (.ok tournaments, count') =>
        match fetchTournamentsTeams clientGet ceiling tournaments count' [] with
        | (.error err, count'') => (.error err, count'')
        | (.ok teams_by_tournament, count'') =>
          match runEvents clientGet unescape fromstring ceiling rest count'' with
          | (.error err, c₃) => (.error err, c₃)
          | (.ok snaps, c₃) =>
            (.ok (⟨ev, tournaments, teams_by_tournament⟩ :: snaps), c₃) := rfl

/-- C8: when fetching an event's sub-tournaments fails with any
exception (that is, after the transport's internal retries are
exhausted), the event loop of `FIVBService.run` catches it, skips that
event — contributing no snapshot — and continues with the remaining
events at the updated request count, so a per-event failure is never
fatal to the run and the snapshots of the other events are still
produced; and a successful window fetch makes `run` process exactly the
selected events through this loop. -/
theorem run_skips_failed_event (clientGet : Query → Except PyExn XmlNode)
    (unescape : String → String) (fromstring : String → Option XmlNode)
    (ceiling : Nat) :
    (∀ ev rest count err count',
      fetch_event_tournaments clientGet unescape fromstring ceiling count
        ev.no = (.error err, count') →
      runEvents clientGet unescape fromstring ceiling (ev :: rest) count =
        runEvents clientGet unescape fromstring ceiling rest count') ∧
    (∀ today count year events c,
      fetch_upcoming_events clientGet today year 28 ceiling count =
        (.ok events, c) →
      run clientGet unescape fromstring today ceiling count year =
        runEvents clientGet unescape fromstring ceiling events c) := by
  constructor
  · intro ev rest count err count' hfetch
    rw [runEvents_cons, hfetch]
  · intro today count year events c hfetch
    unfold run
    rw [hfetch]

def fromstringNone : String → Option XmlNode := fun _ => none

def evListRoot2 : XmlNode :=
  .mk "Response" [] none
    [.mk "Event" [("No", "201"), ("Code", "E1"), ("Name", "One"),
       ("StartDate", "2099-01-05"), ("EndDate", "2099-01-06")] none [],
     .mk "Event" [("No", "202"), ("Code", "E2"), ("Name", "Two"),
       ("StartDate", "2099-01-06"), ("EndDate", "2099-01-07")] none []]

def evDetail202Root : XmlNode :=
  .mk "Response" [] none
    [.mk "Event" [("No", "202")] none
      [.mk "BeachTournament" [("No", "7001"), ("Gender", "M")] none []]]

def emptyRootW : XmlNode := .mk "Response" [] none []

def eventC8a : Event :=
  ⟨201, "E1", "One", daysFromCivil 2099 1 5, daysFromCivil 2099 1 6⟩

def eventC8b : Event :=
  ⟨202, "E2", "Two", daysFromCivil 2099 1 6, daysFromCivil 2099 1 7⟩

def clientGetC8 : Query → Except PyExn XmlNode := fun q =>
  if q = q_get_event_list (daysFromCivil 2099 1 1) (daysFromCivil 2099 12 31)
    then .ok evListRoot2
  else if q = q_get_event 201 then .error (.requestException "GetEvent failed")
  else if q = q_get_event 202 then .ok evDetail202Root
  else .ok emptyRootW

/-- Witness for C8 at a concrete input: the run selects two events, the
first event's `GetEvent` fetch fails and is skipped, and the loop
continues with the second event at the incremented request count. -/
theorem run_skips_failed_event_witness :
    run clientGetC8 unescapeW fromstringNone (daysFromCivil 2099 1 1) 20 0
      2099 =
      runEvents clientGetC8 unescapeW fromstringNone 20 [eventC8a, eventC8b]
        1 ∧
    runEvents clientGetC8 unescapeW fromstringNone 20 [eventC8a, eventC8b] 1 =
      runEvents clientGetC8 unescapeW fromstringNone 20 [eventC8b] 2 := by
  constructor
  · exact (run_skips_failed_event clientGetC8 unescapeW fromstringNone 20).2
      (daysFromCivil 2099 1 1) 0 2099 [eventC8a, eventC8b] 1 rfl
  · exact (run_skips_failed_event clientGetC8 unescapeW fromstringNone 20).1
      eventC8a [eventC8b] 1 (.requestException "GetEvent failed") 2 rfl

theorem mem_map_fst_assocSet {α β : Type} [DecidableEq α]
    (d : List (α × β)) (k₀ : α) (v : β) (k : α) :
    k ∈ (assocSet d k₀ v).map Prod.fst ↔ k ∈ d.map Prod.fst ∨ k = k₀ := by
  rw [map_fst_assocSet]
  by_cases hm : k₀ ∈ d.map Prod.fst
  · rw [if_pos hm]
    constructor
    · exact Or.inl
    · rintro (h | h)
      · exact h
      · exact h ▸ hm
  · rw [if_neg hm]
    simp [List.mem_append]

theorem fetchTournamentsTeams_cons (clientGet : Query → Except PyExn XmlNode)
    (ceiling : Nat) (tref : BeachTournamentRef) (rest : List BeachTournamentRef)
    (count : Nat) (acc : List (Int × List BeachTeam)) :
    fetchTournamentsTeams clientGet ceiling (tref :: rest) count acc =
      match fetch_teams_for_tournament clientGet ceiling count
          tref.tournament_no with
      | (.error err, count') => (.error err, count')
      | (.ok teams, count') =>
        fetchTournamentsTeams clientGet ceiling rest count'
          (assocSet acc tref.tournament_no teams) := rfl

theorem fetchTournamentsTeams_keys (clientGet : Query → Except PyExn XmlNode)
    (ceiling : Nat) :
    ∀ (trefs : List BeachTournamentRef) (count : Nat)
      (acc res : List (Int × List BeachTeam)) (c' : Nat),
      fetchTournamentsTeams clientGet ceiling trefs count acc = (.ok res, c') →
      ∀ k : Int, k ∈ res.map Prod.fst ↔
        k ∈ acc.map Prod.fst ∨ k ∈ trefs.map (fun t => t.tournament_no) := by
  intro trefs
  induction trefs with
  | nil =>
    intro count acc res c' h k
    have hres : res = acc := by
      have := congrArg Prod.fst h
      simp only at this
      exact ((Except.ok.injEq _ _ ▸ this)).symm
    rw [hres]
    simp
  | cons tref rest ih =>
    intro count acc res c' h k
    rw [fetchTournamentsTeams_cons] at h
    cases hf : fetch_teams_for_tournament clientGet ceiling count
        tref.tournament_no with
    | mk r cnt =>
      cases r with
      | error err =>
        rw [hf] at h
        dsimp only at h
        exact absurd (congrArg Prod.fst h) (by simp)
      | ok teams =>
        rw [hf] at h
        dsimp only at h
        have hkeys := ih cnt (assocSet acc tref.tournament_no teams) res c' h k
        rw [hkeys, mem_map_fst_assocSet]
        simp only [List.map_cons, List.mem_cons]
        tauto

theorem runEvents_snapshot_keys (clientGet : Query → Except PyExn XmlNode)
    (unescape : String → String) (fromstring : String → Option XmlNode)
    (ceiling : Nat) :
    ∀ (events : List Event) (count : Nat) (snaps : List EventTeamsSnapshot)
      (c : Nat),
      runEvents clientGet unescape fromstring ceiling events count =
        (.ok snaps, c) →
      ∀ snap ∈ snaps, ∀ k : Int,
        k ∈ snap.teams_by_tournament.map Prod.fst ↔
          k ∈ snap.tournaments.map (fun t => t.tournament_no) := by
  intro events
  induction events with
  | nil =>
    intro count snaps c h snap hsnap k
    have hs : snaps = [] := by
      have := congrArg Prod.fst h
      simp only at this
      exact ((Except.ok.injEq _ _ ▸ this)).symm
    rw [hs] at hsnap
    exact absurd hsnap (by simp)
  | cons ev rest ih =>
    intro count snaps c h snap hsnap k
    rw [runEvents_cons] at h
    cases hf : fetch_event_tournaments clientGet unescape fromstring ceiling
        count ev.no with
    | mk r cnt =>
      cases r with
      | error err =>
        rw [hf] at h
        dsimp only at h
        exact ih cnt snaps c h snap hsnap k
      | ok tournaments =>
        rw [hf] at h
        dsimp only at h
        cases ht : fetchTournamentsTeams clientGet ceiling tournaments cnt []
            with
        | mk r2 cnt2 =>
          cases r2 with
          | error err =>
            rw [ht] at h
            dsimp only at h
            exact absurd (congrArg Prod.fst h) (by simp)
          | ok tbt =>
            rw [ht] at h
            dsimp only at h
            cases hr : runEvents clientGet unescape fromstring ceiling rest
                cnt2 with
            | mk r3 c₃ =>
              cases r3 with
              | error err =>
                rw [hr] at h
                dsimp only at h
                exact absurd (congrArg Prod.fst h) (by simp)
              | ok snaps' =>
                rw [hr] at h
                dsimp only at h
                have hsnaps : (⟨ev, tournaments, tbt⟩ : EventTeamsSnapshot) ::
                    snaps' = snaps := by
                  have := congrArg Prod.fst h
                  simp only at this
                  exact (Except.ok.injEq _ _ ▸ this)
                rw [← hsnaps] at hsnap
                rcases List.mem_cons.mp hsnap with heq | hmem
                · rw [heq]
                  have hk := fetchTournamentsTeams_keys clientGet ceiling
                    tournaments cnt [] tbt cnt2 ht k
                  simpa using hk
                · exact ih cnt2 snaps' c₃ hr snap hmem k

/-- C9: in every `EventTeamsSnapshot` a successful `FIVBService.run`
produces, the key set of `teams_by_tournament` is exactly the set of
`tournament_no` values of the snapshot's `tournaments` list: every
listed tournament has a map entry (an empty team list when its four
status queries returned no teams, never an omitted entry), and no entry
references a tournament number absent from the list. -/
theorem run_snapshot_keys (clientGet : Query → Except PyExn XmlNode)
    (unescape : String → String) (fromstring : String → Option XmlNode)
    (today : Int) (ceiling count year : Nat)
    (snaps : List EventTeamsSnapshot) (c : Nat)
    (h : run clientGet unescape fromstring today ceiling count year =
      (.ok snaps, c)) :
    ∀ snap ∈ snaps, ∀ k : Int,
      k ∈ snap.teams_by_tournament.map Prod.fst ↔
        k ∈ snap.tournaments.map (fun t => t.tournament_no) := by
  unfold run at h
  cases hf : fetch_upcoming_events clientGet today year 28 ceiling count with
  | mk r c₀ =>
    cases r with
    | error err =>
      rw [hf] at h
      dsimp only at h
      exact absurd (congrArg Prod.fst h) (by simp)
    | ok events =>
      rw [hf] at h
      dsimp only at h
      exact runEvents_snapshot_keys clientGet unescape fromstring ceiling
        events c₀ snaps c h

def evListRootRun : XmlNode :=
  .mk "Response" [] none
    [.mk "Event" [("No", "555"), ("Code", "X"), ("Name", "Test"),
       ("StartDate", "2099-01-10"), ("EndDate", "2099-01-12")] none []]

def evDetailRootRun : XmlNode :=
  .mk "Response" [] none
    [.mk "Event" [("No", "555")] none
      [.mk "BeachTournament" [("No", "8136"), ("Gender", "M")] none [],
       .mk "BeachTournament" [("No", "8137"), ("Gender", "W")] none []]]

def clientGetRun : Query → Except PyExn XmlNode := fun q =>
  if q = q_get_event_list (daysFromCivil 2099 1 1) (daysFromCivil 2099 12 31)
    then .ok evListRootRun
  else if q = q_get_event 555 then .ok evDetailRootRun
  else if q = q_get_beach_team_list 8136 "Registered" then .ok teamRootW
  else .ok emptyRootW

def beachTeamRun : BeachTeam :=
  ⟨some 111, some 222, "T1", some 5, "Registered", none⟩

def snapRun0 : EventTeamsSnapshot :=
  ⟨⟨555, "X", "Test", daysFromCivil 2099 1 10, daysFromCivil 2099 1 12⟩,
   [⟨8136, some "M"⟩, ⟨8137, some "W"⟩],
   [(8136, [beachTeamRun]), (8137, [])]⟩

set_option maxHeartbeats 1000000 in
/-- Witness for C9 at a concrete input: a full run over one event with
two tournaments, where only tournament 8136's Registered query returns a
team; the snapshot's map holds exactly the keys 8136 and 8137, with an
empty (not omitted) list for 8137. -/
theorem run_snapshot_keys_witness :
    ((8137 : Int) ∈ snapRun0.teams_by_tournament.map Prod.fst ↔
      (8137 : Int) ∈ snapRun0.tournaments.map (fun t => t.tournament_no)) ∧
    ((9999 : Int) ∈ snapRun0.teams_by_tournament.map Prod.fst ↔
      (9999 : Int) ∈ snapRun0.tournaments.map (fun t => t.tournament_no)) :=
  ⟨run_snapshot_keys clientGetRun unescapeW fromstringNone
    (daysFromCivil 2099 1 1) 20 0 2099 [snapRun0] 10 rfl snapRun0
    (List.mem_singleton_self _) 8137,
   run_snapshot_keys clientGetRun unescapeW fromstringNone
    (daysFromCivil 2099 1 1) 20 0 2099 [snapRun0] 10 rfl snapRun0
    (List.mem_singleton_self _) 9999⟩
